import Mathlib

/-!
Shallow embedding of the completion-tracking cache and time-range
productivity aggregator of `src/amazing_marvin_mcp/utils.py`.

Modelling conventions:
* Timestamps are integers counted in minutes (`Int`); one calendar day is
  1440 minutes, and the calendar date of a timestamp is its floor-division
  by 1440 (`todayOf`).  Calendar dates are `Int` day numbers, so
  `datetime.strptime`/`strftime` round-trips become the identity and
  `timedelta(days = 1)` is `+ 1` on day numbers.
* `CACHE_TTL_MINUTES = 10` and `CACHE_CLEANUP_HOURS = 1` (= 60 minutes)
  are kept in minutes.
* Python dicts are insertion-ordered association lists with unique keys;
  `dictInsert` overwrites in place (keeping the key's position) and
  appends new keys at the end, matching CPython semantics.
* Completed items are opaque records; only the parent/project identifier
  (`parentId`, the sentinel "unassigned" when absent) is interpreted.
* Python exceptions are modelled with `Except String`; a fetch function
  is `Int → Except String (List Item)`.  An operation that may invoke the
  fetch function also returns the number of times it invoked it, so that
  "fetchFn is not called" is a provable statement.
-/

/-- Minutes per calendar day. -/
def minutesPerDay : Int := 1440

/-- `CACHE_TTL_MINUTES` from the source. -/
def cacheTtlMinutes : Int := 10

/-- `CACHE_CLEANUP_HOURS` from the source, converted to minutes. -/
def cacheCleanupMinutes : Int := 60

/-- The calendar date (day number) of a timestamp:
`datetime.now().strftime("%Y-%m-%d")` for a clock reading `now`. -/
def todayOf (now : Int) : Int := Int.fdiv now minutesPerDay

/-- The weekday of a calendar date (`date_obj.strftime("%A")`): any fixed
function of the date models the weekday name; we use the residue mod 7. -/
def weekdayOf (date : Int) : Int := Int.emod date 7

/-- A completed item (`CompletedItem`): an opaque record carrying an
identifier and an optional parent/project identifier; other fields of the
Python dict are irrelevant to the core and omitted. -/
structure Item where
  id : String
  parentId : Option String
deriving Repr, DecidableEq

/-- `item.get("parentId", "unassigned")`. -/
def projectKeyOf (item : Item) : String := item.parentId.getD "unassigned"

/-- Lookup in an insertion-ordered dict (`d[k]` / `k in d`). -/
def dictGet? {K V : Type} [DecidableEq K] : List (K × V) → K → Option V
  | [], _ => none
  | (k', v') :: rest, k => if k = k' then some v' else dictGet? rest k

/-- `d[k] = v` on a Python dict: overwrite in place if the key is present
(keeping its position), append at the end otherwise. -/
def dictInsert {K V : Type} [DecidableEq K] : List (K × V) → K → V → List (K × V)
  | [], k, v => [(k, v)]
  | (k', v') :: rest, k, v =>
      if k = k' then (k', v) :: rest else (k', v') :: dictInsert rest k v

/-- `d.pop(k, None)`: remove the key if present. -/
def dictPop {K V : Type} [DecidableEq K] : List (K × V) → K → List (K × V)
  | [], _ => []
  | (k', v') :: rest, k =>
      if k = k' then rest else (k', v') :: dictPop rest k

/-- The `DoneItemsCache` state: `_cache` maps a date to its items,
`_expiry` maps a date to the entry's expiry timestamp. -/
structure Cache where
  cache : List (Int × List Item)
  expiry : List (Int × Int)
deriving Repr, DecidableEq

/-- The empty cache (`DoneItemsCache.__init__`). -/
def Cache.empty : Cache := ⟨[], []⟩

/-- `DoneItemsCache._is_cached_and_valid`. -/
def Cache.isCachedAndValid (c : Cache) (date : Int) (currentTime : Int) : Bool :=
  (dictGet? c.cache date).isSome &&
    match dictGet? c.expiry date with
    | some expTime => currentTime < expTime
    | none => false

/-- `DoneItemsCache._cleanup_expired_entries`: drop every entry whose
expiry is older than `current_time - 1 hour` from both maps. -/
def Cache.cleanupExpiredEntries (c : Cache) (currentTime : Int) : Cache :=
  let cleanupThreshold := currentTime - cacheCleanupMinutes
  let expiredDates := (c.expiry.filter (fun p => p.2 < cleanupThreshold)).map (·.1)
  { cache := expiredDates.foldl (fun m d => dictPop m d) c.cache
    expiry := expiredDates.foldl (fun m d => dictPop m d) c.expiry }

/-- `DoneItemsCache.get`: returns the result (items or the propagated
upstream error), the post-call cache state, and the number of times the
fetch function (`api_client.get_done_items`) was invoked. -/
def Cache.get (c : Cache) (now : Int) (date : Int)
    (fetch : Int → Except String (List Item)) :
    Except String (List Item) × Cache × Nat :=
  let today := todayOf now
  if date = today then
    -- don't cache today's data: always fetch fresh
    (fetch date, c, 1)
  else if c.isCachedAndValid date now then
    ((dictGet? c.cache date).getD [] |> Except.ok, c, 0)
  else
    match fetch date with
    | .error e => (.error e, c, 1)
    | .ok items =>
        let c1 : Cache :=
          { cache := dictInsert c.cache date items
            expiry := dictInsert c.expiry date (now + cacheTtlMinutes) }
        (.ok items, c1.cleanupExpiredEntries now, 1)

/-- `DoneItemsCache.get_stats`: `(cached_dates, total_cached_items)`. -/
def Cache.getStats (c : Cache) : Nat × Nat :=
  (c.cache.length, (c.cache.map (fun p => p.2.length)).sum)

/-- One row of `range_summary["daily_breakdown"]`. -/
structure DaySummary where
  count : Nat
  weekday : Int
  is_today : Bool
  tasks : List Item
deriving Repr, DecidableEq

/-- A row of `range_summary["tasks_by_project"]`: the task together with
its completion date and weekday. -/
structure ProjectTaskEntry where
  task : Item
  completed_date : Int
  weekday : Int
deriving Repr, DecidableEq

/-- `most_productive_day` / `least_productive_day` payload. -/
structure ProductiveDay where
  date : Int
  count : Nat
  weekday : Int
deriving Repr, DecidableEq

/-- The `range_summary` accumulator built by
`get_productivity_summary_for_time_range_util` before assembly. -/
structure RangeSummary where
  period_start : Int
  period_end : Int
  total_days : Nat
  total_completed : Nat
  daily_breakdown : List (Int × DaySummary)
  by_project : List (String × Nat)
  all_completed_tasks : List Item
  tasks_by_date : List (Int × List Item)
  tasks_by_project : List (String × List ProjectTaskEntry)
  most_productive_day : Option ProductiveDay
  least_productive_day : Option ProductiveDay
  average_per_day : Rat
  api_calls : Nat
deriving Repr, DecidableEq

/-- The initial `range_summary` dict literal of
`get_productivity_summary_for_time_range_util`. -/
def initialRangeSummary (start end_ : Int) (dateList : List Int) : RangeSummary :=
  { period_start := start
    period_end := end_
    total_days := dateList.length
    total_completed := 0
    daily_breakdown := []
    by_project := []
    all_completed_tasks := []
    tasks_by_date := []
    tasks_by_project := []
    most_productive_day := none
    least_productive_day := none
    average_per_day := 0
    api_calls := 0 }

/-- `_generate_date_range`, explicit-range branch: the `while current <= end`
loop collecting one date per day in ascending order. -/
def ascDateRange (current end_ : Int) : List Int :=
  if current ≤ end_ then current :: ascDateRange (current + 1) end_ else []
termination_by (end_ + 1 - current).toNat
decreasing_by
  omega

/-- `_generate_date_range`.  The `start_date` / `end_date` arguments stand
for the outcome of `datetime.strptime` on the corresponding raw string:
`Except.error` models a string that fails to parse (raising `ValueError`),
which the top-level caller catches.  Returns `(date_list, start, end)`. -/
def generateDateRange (days : Option Nat) (startDate endDate : Option (Except String Int))
    (now : Int) : Except String (List Int × Int × Int) := do
  match startDate with
  | some s => do
      let start ← s
      let end_ ← match endDate with
        | some e => e
        | none => pure (todayOf now)
      pure (ascDateRange start end_, start, end_)
  | none =>
      let d := days.getD 7
      let today := todayOf now
      let dateList := (List.range d).map (fun (i : Nat) => today - (i : Int))
      pure (dateList, today - ((d : Int) - 1), today)

/-- The inner per-item loop of `_process_date_data`: count the item under
its project key and append it to the project's task list. -/
def addItemToProjects (dateStr : Int) (weekday : Int)
    (byProject : List (String × Nat))
    (tasksByProject : List (String × List ProjectTaskEntry)) (item : Item) :
    List (String × Nat) × List (String × List ProjectTaskEntry) :=
  let projectId := projectKeyOf item
  let count := (dictGet? byProject projectId).getD 0
  let entries := (dictGet? tasksByProject projectId).getD []
  (dictInsert byProject projectId (count + 1),
   dictInsert tasksByProject projectId
     (entries ++ [⟨item, dateStr, weekday⟩]))

/-- `_process_date_data`: process one date, updating the summary and the
cache; also reports how many times the fetch function was invoked. -/
def processDateData (dateStr : Int) (now : Int)
    (fetch : Int → Except String (List Item)) (cache : Cache)
    (rs : RangeSummary) : RangeSummary × Cache × Nat :=
  let weekday := weekdayOf dateStr
  let isToday := dateStr = todayOf now
  match cache.get now dateStr fetch with
  | (.ok items, cache', invocations) =>
      let count := items.length
      let (byProject, tasksByProject) :=
        items.foldl
          (fun acc item => addItemToProjects dateStr weekday acc.1 acc.2 item)
          (rs.by_project, rs.tasks_by_project)
      ({ rs with
          api_calls := rs.api_calls + 1
          daily_breakdown :=
            dictInsert rs.daily_breakdown dateStr ⟨count, weekday, isToday, items⟩
          total_completed := rs.total_completed + count
          tasks_by_date := dictInsert rs.tasks_by_date dateStr items
          all_completed_tasks := rs.all_completed_tasks ++ items
          by_project := byProject
          tasks_by_project := tasksByProject },
       cache', invocations)
  | (.error _, cache', invocations) =>
      ({ rs with
          daily_breakdown :=
            dictInsert rs.daily_breakdown dateStr ⟨0, weekday, isToday, []⟩
          tasks_by_date := dictInsert rs.tasks_by_date dateStr [] },
       cache', invocations)

/-- The `for date_str in date_list` loop of
`get_productivity_summary_for_time_range_util`, threading the summary and
the cache and totalling fetch invocations. -/
def processDates (dates : List Int) (now : Int)
    (fetch : Int → Except String (List Item)) (cache : Cache)
    (rs : RangeSummary) : RangeSummary × Cache × Nat :=
  match dates with
  | [] => (rs, cache, 0)
  | d :: rest =>
      let (rs', cache', k) := processDateData d now fetch cache rs
      let (rs'', cache'', k') := processDates rest now fetch cache' rs'
      (rs'', cache'', k + k')

/-- Insert a `(date, count)` pair into a count-sorted list, before any pair
of equal count (so that sorting with it is stable). -/
def insertByCount (x : Int × Nat) : List (Int × Nat) → List (Int × Nat)
  | [] => [x]
  | y :: rest =>
      if x.2 ≤ y.2 then x :: y :: rest else y :: insertByCount x rest

/-- `sorted(daily_counts, key=lambda x: x[1])`: Python's stable ascending
sort by count, modelled as a stable insertion sort (extensionally equal to
any stable sort by count). -/
def sortByCount : List (Int × Nat) → List (Int × Nat)
  | [] => []
  | x :: rest => insertByCount x (sortByCount rest)

/-- `_calculate_statistics`. -/
def calculateStatistics (rs : RangeSummary) : RangeSummary :=
  match rs.daily_breakdown with
  | [] => rs
  | _ :: _ =>
      let dailyCounts := rs.daily_breakdown.map (fun p => (p.1, p.2.count))
      let sortedDays := sortByCount dailyCounts
      let first := sortedDays.headD (0, 0)
      let last := sortedDays.getLastD (0, 0)
      let weekdayAt := fun (d : Int) =>
        ((dictGet? rs.daily_breakdown d).getD ⟨0, 0, false, []⟩).weekday
      { rs with
          least_productive_day := some ⟨first.1, first.2, weekdayAt first.1⟩
          most_productive_day := some ⟨last.1, last.2, weekdayAt last.1⟩
          average_per_day :=
            (rs.total_completed : Rat) / (dailyCounts.length : Rat) }

/-- A project as returned by `api_client.get_projects()`: only the `_id`
and `title` fields are consumed. -/
structure Project where
  id : String
  title : String
deriving Repr, DecidableEq

/-- One row of `top_projects_with_names`. -/
structure NamedProject where
  project_id : String
  project_name : String
  completed_count : Nat
deriving Repr, DecidableEq

/-- The `efficiency_metrics` record of the final report. -/
structure EfficiencyMetrics where
  cached_dates : Nat
  total_cached_items : Nat
  total_api_calls : Nat
deriving Repr, DecidableEq

/-- The dict returned by `get_productivity_summary_for_time_range_util`.
The degraded (error) dict carries only `error`, `total_completed`,
`daily_breakdown` and `by_project`; the remaining keys are absent, which
we model with `none` / empty defaults. -/
structure Report where
  error : Option String
  total_completed : Nat
  daily_breakdown : List (Int × DaySummary)
  by_project : List (String × Nat)
  summary : Option RangeSummary
  top_projects : List (String × Nat)
  project_names : List (String × String)
  top_projects_with_names : List NamedProject
  efficiency_metrics : Option EfficiencyMetrics
deriving Repr, DecidableEq

/-- The degraded report built in the outer `except` clause of
`get_productivity_summary_for_time_range_util`. -/
def degradedReport (e : String) : Report :=
  { error := some e
    total_completed := 0
    daily_breakdown := []
    by_project := []
    summary := none
    top_projects := []
    project_names := []
    top_projects_with_names := []
    efficiency_metrics := none }

/-- Insert a `(projectId, count)` pair into a descending count-sorted
list, before any pair of equal count (stability of `reverse=True`). -/
def insertByCountDesc (x : String × Nat) : List (String × Nat) → List (String × Nat)
  | [] => [x]
  | y :: rest =>
      if x.2 ≥ y.2 then x :: y :: rest else y :: insertByCountDesc x rest

/-- `sorted(by_project.items(), key=lambda x: x[1], reverse=True)`:
Python's stable descending sort by count. -/
def sortByCountDesc : List (String × Nat) → List (String × Nat)
  | [] => []
  | x :: rest => insertByCountDesc x (sortByCountDesc rest)

/-- `project_names.get(proj_id, "Unknown Project" if proj_id != "unassigned" else "Unassigned")`. -/
def resolveName (names : List (String × String)) (projId : String) : String :=
  (dictGet? names projId).getD
    (if projId ≠ "unassigned" then "Unknown Project" else "Unassigned")

/-- The infallible tail of the `try` body of
`get_productivity_summary_for_time_range_util`, run once the date range
is known: per-date aggregation, statistics, project ranking, best-effort
name resolution (`fetchProjects` models `api_client.get_projects()`; its
failure is caught locally and non-fatal) and efficiency metrics.
Returns the report, the final cache state and the total number of
per-date fetch invocations. -/
def assembleReport (dateList : List Int) (start end_ : Int) (now : Int)
    (fetch : Int → Except String (List Item))
    (fetchProjects : Except String (List Project)) (cache : Cache) :
    Report × Cache × Nat :=
  let rs0 := initialRangeSummary start end_ dateList
  let (rs1, cache', invocations) := processDates dateList now fetch cache rs0
  let rs2 := calculateStatistics rs1
  let topProjects := (sortByCountDesc rs2.by_project).take 5
  let (names, topWithNames) :=
    match fetchProjects with
    | .ok projects =>
        let names := projects.foldl (fun m p => dictInsert m p.id p.title) []
        (names,
         topProjects.map (fun pc =>
           NamedProject.mk pc.1 (resolveName names pc.1) pc.2))
    | .error _ => ([], [])
  let stats := cache'.getStats
  ({ error := none
     total_completed := rs2.total_completed
     daily_breakdown := rs2.daily_breakdown
     by_project := rs2.by_project
     summary := some rs2
     top_projects := topProjects
     project_names := names
     top_projects_with_names := topWithNames
     efficiency_metrics := some ⟨stats.1, stats.2, rs2.api_calls⟩ },
   cache', invocations)

/-- The body of the outer `try` of
`get_productivity_summary_for_time_range_util`: date-range expansion
(whose failure propagates out of the `try` body), then the infallible
assembly. -/
def buildReportCore (days : Option Nat) (startDate endDate : Option (Except String Int))
    (now : Int) (fetch : Int → Except String (List Item))
    (fetchProjects : Except String (List Project)) (cache : Cache) :
    Except String (Report × Cache × Nat) :=
  match generateDateRange days startDate endDate now with
  | .error e => .error e
  | .ok (dateList, start, end_) =>
      .ok (assembleReport dateList start end_ now fetch fetchProjects cache)

/-- `get_productivity_summary_for_time_range_util`: the outer
`try/except` converts any orchestration failure into a degraded report
instead of propagating it (the cache is untouched on that path, since the
only fallible step precedes every cache operation). -/
def buildReport (days : Option Nat) (startDate endDate : Option (Except String Int))
    (now : Int) (fetch : Int → Except String (List Item))
    (fetchProjects : Except String (List Project)) (cache : Cache) :
    Report × Cache × Nat :=
  match buildReportCore days startDate endDate now fetch fetchProjects cache with
  | .ok r => r
  | .error e => (degradedReport e, cache, 0)

instance {E A : Type} [DecidableEq E] [DecidableEq A] : DecidableEq (Except E A) :=
  fun a b =>
    match a, b with
    | .ok x, .ok y =>
        if h : x = y then isTrue (h ▸ rfl)
        else isFalse (fun hh => h (Except.ok.inj hh))
    | .error x, .error y =>
        if h : x = y then isTrue (h ▸ rfl)
        else isFalse (fun hh => h (Except.error.inj hh))
    | .ok _, .error _ => isFalse (fun hh => Except.noConfusion hh)
    | .error _, .ok _ => isFalse (fun hh => Except.noConfusion hh)

/-- The key-uniqueness invariant of a Python dict modelled as an
association list. -/
def dictWF {K V : Type} (m : List (K × V)) : Prop := (m.map Prod.fst).Nodup

instance {K V : Type} [DecidableEq K] (m : List (K × V)) : Decidable (dictWF m) := by
  unfold dictWF; infer_instance

/-- Well-formedness of a reachable cache state: `_cache` and `_expiry`
always hold exactly the same keys (they are only ever updated together),
and keys are unique. -/
def Cache.WF (c : Cache) : Prop :=
  c.cache.map Prod.fst = c.expiry.map Prod.fst ∧ dictWF c.expiry

instance (c : Cache) : Decidable c.WF := by
  unfold Cache.WF; infer_instance

/-- The sequence of per-date results observed by the aggregation loop:
the result of `DoneItemsCache.get` for each date in order, threading the
cache exactly as the loop does.  A ghost observation of `processDates`
used to talk about which dates failed. -/
def runOutcomes (dates : List Int) (now : Int)
    (fetch : Int → Except String (List Item)) (cache : Cache) :
    List (Except String (List Item)) :=
  match dates with
  | [] => []
  | d :: rest =>
      let r := cache.get now d fetch
      r.1 :: runOutcomes rest now fetch r.2.1

/-- The number of completed items a per-date outcome contributes to
`total_completed`: its item count on success, `0` on failure. -/
def successCount (o : Except String (List Item)) : Nat :=
  match o with
  | .ok items => items.length
  | .error _ => 0

/-- The breakdown entry recorded for a date with the given outcome. -/
def entryForOutcome (d : Int) (now : Int) (o : Except String (List Item)) : DaySummary :=
  match o with
  | .ok items => ⟨items.length, weekdayOf d, decide (d = todayOf now), items⟩
  | .error _ => ⟨0, weekdayOf d, decide (d = todayOf now), []⟩

/-- Modelled from the spec: the first `(date, count)` pair attaining the
minimum count ("ties select the first-seen date for the minimum"). -/
def specLeastDay : List (Int × Nat) → Option (Int × Nat)
  | [] => none
  | p :: rest =>
      match specLeastDay rest with
      | none => some p
      | some q => if p.2 ≤ q.2 then some p else some q

/-- Modelled from the spec: the last `(date, count)` pair attaining the
maximum count ("ties select the last-seen date for the maximum"). -/
def specMostDay : List (Int × Nat) → Option (Int × Nat)
  | [] => none
  | p :: rest =>
      match specMostDay rest with
      | none => some p
      | some q => if q.2 < p.2 then some p else some q

/-- A fetch function that always succeeds with one unassigned item. -/
def fetchOneItem : Int → Except String (List Item) :=
  fun _ => .ok [⟨"t1", none⟩]

/-- A fetch function failing on date `1` and succeeding elsewhere. -/
def fetchFailOn1 : Int → Except String (List Item) :=
  fun d => if d = 1 then .error "HTTP 500" else .ok [⟨"t2", some "p1"⟩]

/-- A cache state holding one entry for date `0`, stored at minute 2000
(so it expires at minute 2010): the result of one miss-and-store `get`. -/
def cacheWithDate0 : Cache := (Cache.empty.get 2000 0 fetchOneItem).2.1

/-- A concrete summary whose daily counts are `{day 0 ↦ 2, day 1 ↦ 0,
day 2 ↦ 5}`, used to instantiate the statistics theorems. -/
def rsExample : RangeSummary :=
  { initialRangeSummary 0 2 [0, 1, 2] with
      total_completed := 7
      daily_breakdown :=
        [(0, ⟨2, 0, false, [⟨"a", none⟩, ⟨"b", none⟩]⟩),
         (1, ⟨0, 1, false, []⟩),
         (2, ⟨5, 2, false, []⟩)] }

/-! ### Association-list (Python dict) lemmas -/

theorem dictGet?_dictInsert_self {K V : Type} [DecidableEq K]
    (m : List (K × V)) (k : K) (v : V) :
    dictGet? (dictInsert m k v) k = some v := by
  induction m with
  | nil => simp [dictInsert, dictGet?]
  | cons hd tl ih =>
      by_cases h : k = hd.1
      · simp [dictInsert, dictGet?, h]
      · simp [dictInsert, dictGet?, h, ih]

theorem dictGet?_dictInsert_ne {K V : Type} [DecidableEq K]
    (m : List (K × V)) (k k' : K) (v : V) (h : k' ≠ k) :
    dictGet? (dictInsert m k v) k' = dictGet? m k' := by
  induction m with
  | nil => simp [dictInsert, dictGet?, h]
  | cons hd tl ih =>
      by_cases hk : k = hd.1
      · subst hk
        simp [dictInsert, dictGet?, h]
      · by_cases hk' : k' = hd.1
        · simp [dictInsert, dictGet?, hk, hk']
        · simp [dictInsert, dictGet?, hk, hk', ih]

theorem dictGet?_dictPop_ne {K V : Type} [DecidableEq K]
    (m : List (K × V)) (j k : K) (h : k ≠ j) :
    dictGet? (dictPop m j) k = dictGet? m k := by
  induction m with
  | nil => simp [dictPop]
  | cons hd tl ih =>
      by_cases hj : j = hd.1
      · subst hj
        simp [dictPop, dictGet?, h]
      · by_cases hk : k = hd.1
        · simp [dictPop, dictGet?, hj, hk]
        · simp [dictPop, dictGet?, hj, hk, ih]

theorem dictGet?_dictPop_none {K V : Type} [DecidableEq K]
    (m : List (K × V)) (j k : K) (h : dictGet? m k = none) :
    dictGet? (dictPop m j) k = none := by
  induction m with
  | nil => simpa [dictPop] using h
  | cons hd tl ih =>
      simp only [dictGet?] at h
      by_cases hk : k = hd.1
      · simp [hk] at h
      · simp only [hk, if_false] at h
        by_cases hj : j = hd.1
        · simp [dictPop, hj, h]
        · simp [dictPop, dictGet?, hj, hk, ih h]

theorem dictGet?_foldlPop_none {K V : Type} [DecidableEq K]
    (ds : List K) (m : List (K × V)) (k : K) (h : dictGet? m k = none) :
    dictGet? (ds.foldl (fun acc d => dictPop acc d) m) k = none := by
  induction ds generalizing m with
  | nil => simpa using h
  | cons d ds ih => exact ih _ (dictGet?_dictPop_none _ _ _ h)

theorem dictGet?_foldlPop_not_mem {K V : Type} [DecidableEq K]
    (ds : List K) (m : List (K × V)) (k : K) (h : k ∉ ds) :
    dictGet? (ds.foldl (fun acc d => dictPop acc d) m) k = dictGet? m k := by
  induction ds generalizing m with
  | nil => rfl
  | cons d ds ih =>
      simp only [List.mem_cons, not_or] at h
      simp only [List.foldl_cons]
      rw [ih _ h.2, dictGet?_dictPop_ne _ _ _ h.1]

theorem mem_of_dictGet?_eq_some {K V : Type} [DecidableEq K]
    (m : List (K × V)) (k : K) (v : V) (h : dictGet? m k = some v) :
    (k, v) ∈ m := by
  induction m with
  | nil => simp [dictGet?] at h
  | cons hd tl ih =>
      obtain ⟨a, b⟩ := hd
      simp only [dictGet?] at h
      by_cases hk : k = a
      · subst hk
        rw [if_pos rfl] at h
        obtain rfl : b = v := Option.some.inj h
        exact List.mem_cons_self _ _
      · rw [if_neg hk] at h
        exact List.mem_cons_of_mem _ (ih h)

theorem dictGet?_eq_some_of_mem_wf {K V : Type} [DecidableEq K]
    (m : List (K × V)) (k : K) (v : V) (hwf : dictWF m) (h : (k, v) ∈ m) :
    dictGet? m k = some v := by
  induction m with
  | nil => simp at h
  | cons hd tl ih =>
      unfold dictWF at hwf
      simp only [List.map_cons, List.nodup_cons] at hwf
      rcases List.mem_cons.mp h with heq | hmem
      · subst heq
        simp [dictGet?]
      · have hk : k ≠ hd.1 := by
          intro hk
          exact hwf.1 (hk ▸ (List.mem_map.mpr ⟨(k, v), hmem, rfl⟩))
        simp [dictGet?, hk, ih hwf.2 hmem]

theorem dictGet?_isSome_iff {K V : Type} [DecidableEq K]
    (m : List (K × V)) (k : K) :
    (dictGet? m k).isSome = true ↔ k ∈ m.map Prod.fst := by
  induction m with
  | nil => simp [dictGet?]
  | cons hd tl ih =>
      by_cases hk : k = hd.1
      · simp [dictGet?, hk]
      · simp [dictGet?, hk, ih]

theorem keys_dictInsert {K V : Type} [DecidableEq K]
    (m : List (K × V)) (k : K) (v : V) :
    (dictInsert m k v).map Prod.fst =
      if k ∈ m.map Prod.fst then m.map Prod.fst else m.map Prod.fst ++ [k] := by
  induction m with
  | nil => simp [dictInsert]
  | cons hd tl ih =>
      by_cases hk : k = hd.1
      · simp [dictInsert, hk]
      · simp only [dictInsert, hk, if_false, List.map_cons, ih, List.mem_cons]
        by_cases hmem : k ∈ tl.map Prod.fst
        · simp [hmem, hk]
        · simp [hmem, hk]

theorem keys_dictPop {K V : Type} [DecidableEq K]
    (m : List (K × V)) (k : K) :
    (dictPop m k).map Prod.fst = (m.map Prod.fst).erase k := by
  induction m with
  | nil => simp [dictPop]
  | cons hd tl ih =>
      by_cases hk : k = hd.1
      · simp [dictPop, hk, List.erase_cons_head]
      · rw [List.map_cons, List.erase_cons_tail]
        · simp [dictPop, hk, ih]
        · simp [Ne.symm hk]

theorem dictWF_dictInsert {K V : Type} [DecidableEq K]
    (m : List (K × V)) (k : K) (v : V) (hwf : dictWF m) :
    dictWF (dictInsert m k v) := by
  unfold dictWF at hwf ⊢
  rw [keys_dictInsert]
  by_cases hmem : k ∈ m.map Prod.fst
  · simpa [hmem] using hwf
  · simp only [hmem, if_false]
    exact List.Nodup.append hwf (List.nodup_singleton k)
      (by simpa using fun h => hmem h)

theorem dictWF_dictPop {K V : Type} [DecidableEq K]
    (m : List (K × V)) (k : K) (hwf : dictWF m) :
    dictWF (dictPop m k) := by
  unfold dictWF at hwf ⊢
  rw [keys_dictPop]
  exact hwf.erase k

theorem dictWF_foldlPop {K V : Type} [DecidableEq K]
    (ds : List K) (m : List (K × V)) (hwf : dictWF m) :
    dictWF (ds.foldl (fun acc d => dictPop acc d) m) := by
  induction ds generalizing m with
  | nil => exact hwf
  | cons d ds ih => exact ih _ (dictWF_dictPop _ _ hwf)

/-! ### Cache path lemmas -/

theorem get_eq_of_today (c : Cache) (now d : Int)
    (f : Int → Except String (List Item)) (h : d = todayOf now) :
    c.get now d f = (f d, c, 1) := by
  simp [Cache.get, h]

theorem get_eq_of_hit (c : Cache) (now d : Int)
    (f : Int → Except String (List Item)) (hd : d ≠ todayOf now)
    (hv : c.isCachedAndValid d now = true) :
    c.get now d f = (.ok ((dictGet? c.cache d).getD []), c, 0) := by
  simp [Cache.get, hd, hv]

theorem get_eq_of_miss_error (c : Cache) (now d : Int)
    (f : Int → Except String (List Item)) (e : String) (hd : d ≠ todayOf now)
    (hv : c.isCachedAndValid d now = false) (he : f d = .error e) :
    c.get now d f = (.error e, c, 1) := by
  simp [Cache.get, hd, hv, he]

theorem get_eq_of_miss_ok (c : Cache) (now d : Int)
    (f : Int → Except String (List Item)) (items : List Item) (hd : d ≠ todayOf now)
    (hv : c.isCachedAndValid d now = false) (hf : f d = .ok items) :
    c.get now d f =
      (.ok items,
       (Cache.mk (dictInsert c.cache d items)
          (dictInsert c.expiry d (now + cacheTtlMinutes))).cleanupExpiredEntries now,
       1) := by
  simp [Cache.get, hd, hv, hf]

theorem not_mem_expiredKeys (c : Cache) (now k e : Int) (hwf : dictWF c.expiry)
    (hk : dictGet? c.expiry k = some e) (he : ¬ e < now - cacheCleanupMinutes) :
    k ∉ (c.expiry.filter (fun p => decide (p.2 < now - cacheCleanupMinutes))).map Prod.fst := by
  intro hmem
  obtain ⟨p, hp, hpk⟩ := List.mem_map.mp hmem
  obtain ⟨hpmem, hplt⟩ := List.mem_filter.mp hp
  have : (k, p.2) ∈ c.expiry := by
    have : p = (k, p.2) := by
      cases p
      simp only [Prod.mk.injEq, and_true]
      simpa using hpk
    exact this ▸ hpmem
  have := dictGet?_eq_some_of_mem_wf _ _ _ hwf this
  rw [hk] at this
  obtain rfl : e = p.2 := Option.some.inj this
  exact he (by simpa using hplt)

theorem cleanup_preserves (c : Cache) (now k e : Int) (hwf : dictWF c.expiry)
    (hk : dictGet? c.expiry k = some e) (he : ¬ e < now - cacheCleanupMinutes) :
    dictGet? (c.cleanupExpiredEntries now).cache k = dictGet? c.cache k ∧
    dictGet? (c.cleanupExpiredEntries now).expiry k = dictGet? c.expiry k := by
  have hnm := not_mem_expiredKeys c now k e hwf hk he
  constructor
  · exact dictGet?_foldlPop_not_mem _ _ _ hnm
  · exact dictGet?_foldlPop_not_mem _ _ _ hnm

theorem dictGet?_dictPop_self_wf {K V : Type} [DecidableEq K]
    (m : List (K × V)) (k : K) (hwf : dictWF m) :
    dictGet? (dictPop m k) k = none := by
  induction m with
  | nil => simp [dictPop, dictGet?]
  | cons hd tl ih =>
      unfold dictWF at hwf
      simp only [List.map_cons, List.nodup_cons] at hwf
      by_cases hk : k = hd.1
      · subst hk
        simp only [dictPop, eq_self_iff_true, if_true]
        cases h : dictGet? tl hd.1 with
        | none => rfl
        | some v =>
            exact absurd (List.mem_map.mpr ⟨(hd.1, v), mem_of_dictGet?_eq_some _ _ _ h, rfl⟩)
              hwf.1
      · simp [dictPop, dictGet?, Ne.symm hk, hk, ih hwf.2]

theorem dictGet?_foldlPop_mem {K V : Type} [DecidableEq K]
    (ds : List K) (m : List (K × V)) (k : K) (hwf : dictWF m) (h : k ∈ ds) :
    dictGet? (ds.foldl (fun acc d => dictPop acc d) m) k = none := by
  induction ds generalizing m with
  | nil => simp at h
  | cons d ds ih =>
      simp only [List.foldl_cons]
      rcases List.mem_cons.mp h with rfl | hmem
      · by_cases hds : k ∈ ds
        · exact ih _ (dictWF_dictPop _ _ hwf) hds
        · rw [dictGet?_foldlPop_not_mem _ _ _ hds]
          exact dictGet?_dictPop_self_wf _ _ hwf
      · exact ih _ (dictWF_dictPop _ _ hwf) hmem

theorem cleanup_expiry_young (c : Cache) (now : Int) (hwf : dictWF c.expiry) :
    ∀ p ∈ (c.cleanupExpiredEntries now).expiry, ¬ p.2 < now - cacheCleanupMinutes := by
  intro p hp hlt
  have hwf' : dictWF (c.cleanupExpiredEntries now).expiry := by
    unfold Cache.cleanupExpiredEntries
    exact dictWF_foldlPop _ _ hwf
  have hsome := dictGet?_eq_some_of_mem_wf _ _ _ hwf' hp
  by_cases hmem :
      p.1 ∈ (c.expiry.filter (fun q => decide (q.2 < now - cacheCleanupMinutes))).map Prod.fst
  · have : dictGet? (c.cleanupExpiredEntries now).expiry p.1 = none := by
      unfold Cache.cleanupExpiredEntries
      exact dictGet?_foldlPop_mem _ _ _ hwf (by simpa using hmem)
    rw [this] at hsome
    exact Option.noConfusion hsome
  · have heq : dictGet? (c.cleanupExpiredEntries now).expiry p.1 = dictGet? c.expiry p.1 := by
      unfold Cache.cleanupExpiredEntries
      exact dictGet?_foldlPop_not_mem _ _ _ (by simpa using hmem)
    rw [heq] at hsome
    have hpm : p ∈ c.expiry := by
      have := mem_of_dictGet?_eq_some _ _ _ hsome
      cases p
      exact this
    exact hmem (List.mem_map.mpr ⟨p, List.mem_filter.mpr ⟨hpm, by simpa using hlt⟩, rfl⟩)

theorem cleanup_cache_young (c : Cache) (now : Int) (hwf : c.WF) :
    ∀ p ∈ (c.cleanupExpiredEntries now).cache, ∃ e,
      dictGet? (c.cleanupExpiredEntries now).expiry p.1 = some e ∧
      ¬ e < now - cacheCleanupMinutes := by
  intro p hp
  obtain ⟨hkeys, hnd⟩ := hwf
  have hndc : dictWF c.cache := by
    unfold dictWF
    rw [hkeys]
    exact hnd
  have hwfc' : dictWF (c.cleanupExpiredEntries now).cache := by
    unfold Cache.cleanupExpiredEntries
    exact dictWF_foldlPop _ _ hndc
  have hsome := dictGet?_eq_some_of_mem_wf _ _ _ hwfc' hp
  by_cases hmem :
      p.1 ∈ (c.expiry.filter (fun q => decide (q.2 < now - cacheCleanupMinutes))).map Prod.fst
  · exfalso
    have : dictGet? (c.cleanupExpiredEntries now).cache p.1 = none := by
      unfold Cache.cleanupExpiredEntries
      exact dictGet?_foldlPop_mem _ _ _ hndc (by simpa using hmem)
    rw [this] at hsome
    exact Option.noConfusion hsome
  · have heqc : dictGet? (c.cleanupExpiredEntries now).cache p.1 = dictGet? c.cache p.1 := by
      unfold Cache.cleanupExpiredEntries
      exact dictGet?_foldlPop_not_mem _ _ _ (by simpa using hmem)
    have hkc : p.1 ∈ c.cache.map Prod.fst := by
      rw [← dictGet?_isSome_iff]
      rw [heqc] at hsome
      simp [hsome]
    have hke : p.1 ∈ c.expiry.map Prod.fst := hkeys ▸ hkc
    obtain ⟨e, he⟩ := Option.isSome_iff_exists.mp ((dictGet?_isSome_iff _ _).mpr hke)
    refine ⟨e, ?_, ?_⟩
    · have heqe : dictGet? (c.cleanupExpiredEntries now).expiry p.1 = dictGet? c.expiry p.1 := by
        unfold Cache.cleanupExpiredEntries
        exact dictGet?_foldlPop_not_mem _ _ _ (by simpa using hmem)
      rw [heqe, he]
    · intro hlt
      exact hmem
        (List.mem_map.mpr
          ⟨(p.1, e), List.mem_filter.mpr ⟨mem_of_dictGet?_eq_some _ _ _ he, by simpa using hlt⟩,
           rfl⟩)

theorem insert_both_WF (c : Cache) (d : Int) (items : List Item) (t : Int) (hwf : c.WF) :
    Cache.WF ⟨dictInsert c.cache d items, dictInsert c.expiry d t⟩ := by
  obtain ⟨hkeys, hnd⟩ := hwf
  constructor
  · show (dictInsert c.cache d items).map Prod.fst = (dictInsert c.expiry d t).map Prod.fst
    rw [keys_dictInsert, keys_dictInsert, hkeys]
  · exact dictWF_dictInsert _ _ _ hnd

/-- C6: a `Get` for the current calendar day always invokes the fetch
function exactly once, returns its result directly and leaves the cache
untouched; and no `Get` operation whatsoever (any date, any fetch
function) creates an entry for the current calendar date in either map,
so the "no entry for today" invariant is preserved by every operation. -/
theorem todayGet_bypasses_cache (c : Cache) (now d d' : Int)
    (f g : Int → Except String (List Item)) (hd : d = todayOf now)
    (hc : dictGet? c.cache (todayOf now) = none)
    (he : dictGet? c.expiry (todayOf now) = none) :
    c.get now d f = (f d, c, 1) ∧
    dictGet? ((c.get now d' g).2.1).cache (todayOf now) = none ∧
    dictGet? ((c.get now d' g).2.1).expiry (todayOf now) = none := by
  refine ⟨get_eq_of_today c now d f hd, ?_⟩
  by_cases hd' : d' = todayOf now
  · rw [get_eq_of_today c now d' g hd']
    exact ⟨hc, he⟩
  · cases hv : c.isCachedAndValid d' now with
    | true =>
        rw [get_eq_of_hit c now d' g hd' hv]
        exact ⟨hc, he⟩
    | false =>
        cases hg : g d' with
        | error e =>
            rw [get_eq_of_miss_error c now d' g e hd' hv hg]
            exact ⟨hc, he⟩
        | ok items =>
            rw [get_eq_of_miss_ok c now d' g items hd' hv hg]
            constructor
            · unfold Cache.cleanupExpiredEntries
              exact dictGet?_foldlPop_none _ _ _
                (by rw [dictGet?_dictInsert_ne _ _ _ _ (Ne.symm hd')]; exact hc)
            · unfold Cache.cleanupExpiredEntries
              exact dictGet?_foldlPop_none _ _ _
                (by rw [dictGet?_dictInsert_ne _ _ _ _ (Ne.symm hd')]; exact he)

theorem todayGet_bypasses_cache_witness :
    Cache.empty.get 0 0 fetchOneItem = (fetchOneItem 0, Cache.empty, 1) ∧
    dictGet? ((Cache.empty.get 0 5 fetchOneItem).2.1).cache (todayOf 0) = none ∧
    dictGet? ((Cache.empty.get 0 5 fetchOneItem).2.1).expiry (todayOf 0) = none :=
  todayGet_bypasses_cache Cache.empty 0 0 5 fetchOneItem fetchOneItem
    (by decide) (by decide) (by decide)

/-- C5: after a miss-and-store `Get(d, f)` for a non-today date `d`, any
second `Get(d, f')` within the TTL window (and while `d` is still not the
current day) returns the stored items, does not invoke `f'` at all, and
leaves the whole cache — in particular `d`'s entry — unchanged. -/
theorem second_get_within_ttl_hits (c : Cache) (now₀ now₁ d : Int)
    (f g : Int → Except String (List Item)) (items : List Item)
    (hwf : c.WF) (hd₀ : d ≠ todayOf now₀) (hd₁ : d ≠ todayOf now₁)
    (hmiss : c.isCachedAndValid d now₀ = false) (hf : f d = .ok items)
    (_h₀₁ : now₀ ≤ now₁) (httl : now₁ < now₀ + cacheTtlMinutes) :
    ((c.get now₀ d f).2.1).get now₁ d g = (.ok items, (c.get now₀ d f).2.1, 0) := by
  rw [get_eq_of_miss_ok c now₀ d f items hd₀ hmiss hf]
  set c' : Cache :=
    Cache.mk (dictInsert c.cache d items) (dictInsert c.expiry d (now₀ + cacheTtlMinutes))
    with hc'
  have hwf' : dictWF c'.expiry := dictWF_dictInsert _ _ _ hwf.2
  have hkey : dictGet? c'.expiry d = some (now₀ + cacheTtlMinutes) :=
    dictGet?_dictInsert_self _ _ _
  have hyoung : ¬ (now₀ + cacheTtlMinutes) < now₀ - cacheCleanupMinutes := by
    unfold cacheTtlMinutes cacheCleanupMinutes
    omega
  obtain ⟨hpc, hpe⟩ := cleanup_preserves c' now₀ d (now₀ + cacheTtlMinutes) hwf' hkey hyoung
  have hcc : dictGet? ((c'.cleanupExpiredEntries now₀)).cache d = some items := by
    rw [hpc, hc']
    exact dictGet?_dictInsert_self _ _ _
  have hce : dictGet? ((c'.cleanupExpiredEntries now₀)).expiry d =
      some (now₀ + cacheTtlMinutes) := by
    rw [hpe, hc']
    exact dictGet?_dictInsert_self _ _ _
  have hvalid : (c'.cleanupExpiredEntries now₀).isCachedAndValid d now₁ = true := by
    unfold Cache.isCachedAndValid
    rw [hcc, hce]
    simp only [Option.isSome_some, Bool.true_and]
    simpa using httl
  rw [get_eq_of_hit _ now₁ d g hd₁ hvalid, hcc]
  rfl

theorem second_get_within_ttl_hits_witness :
    ((Cache.empty.get 2000 0 fetchOneItem).2.1).get 2005 0 fetchFailOn1 =
      (.ok [⟨"t1", none⟩], (Cache.empty.get 2000 0 fetchOneItem).2.1, 0) :=
  second_get_within_ttl_hits Cache.empty 2000 2005 0 fetchOneItem fetchFailOn1
    [⟨"t1", none⟩] (by decide) (by decide) (by decide) (by decide) rfl
    (by decide) (by decide)

/-- C9: after a miss-and-store `Get` at time `now`, every surviving
expiry entry is no older than `now - 1h`, and every surviving cache entry
has such an expiry (so over-aged entries are gone from any later
`get_stats`); and on the three non-storing paths (today, cache hit,
failed fetch) the cache is returned completely unchanged — no cleanup
runs there. -/
theorem cleanup_runs_on_miss_store_only (c : Cache) (now d d' : Int)
    (f g : Int → Except String (List Item)) (items : List Item) (hwf : c.WF)
    (hd : d ≠ todayOf now) (hmiss : c.isCachedAndValid d now = false)
    (hf : f d = .ok items)
    (hother : d' = todayOf now ∨ c.isCachedAndValid d' now = true ∨
      (∃ e, g d' = .error e)) :
    (∀ p ∈ ((c.get now d f).2.1).expiry, ¬ p.2 < now - cacheCleanupMinutes) ∧
    (∀ p ∈ ((c.get now d f).2.1).cache, ∃ e,
        dictGet? ((c.get now d f).2.1).expiry p.1 = some e ∧
        ¬ e < now - cacheCleanupMinutes) ∧
    (c.get now d' g).2.1 = c := by
  rw [get_eq_of_miss_ok c now d f items hd hmiss hf]
  refine ⟨?_, ?_, ?_⟩
  · exact cleanup_expiry_young _ now (dictWF_dictInsert _ _ _ hwf.2)
  · exact cleanup_cache_young _ now
      (insert_both_WF c d items (now + cacheTtlMinutes) hwf)
  · by_cases hd' : d' = todayOf now
    · rw [get_eq_of_today c now d' g hd']
    · rcases hother with h | h | ⟨e, he⟩
      · exact absurd h hd'
      · rw [get_eq_of_hit c now d' g hd' h]
      · cases hv : c.isCachedAndValid d' now with
        | true => rw [get_eq_of_hit c now d' g hd' hv]
        | false => rw [get_eq_of_miss_error c now d' g e hd' hv he]

theorem cleanup_runs_on_miss_store_only_witness :
    ¬ ((2010 : Int) < 2000 - cacheCleanupMinutes) ∧
    (Cache.empty.get 2000 1 fetchOneItem).2.1 = Cache.empty :=
  ⟨(cleanup_runs_on_miss_store_only Cache.empty 2000 5 1 fetchOneItem fetchOneItem
      [⟨"t1", none⟩] (by decide) (by decide) (by decide) rfl
      (Or.inl (by decide))).1 ((5 : Int), (2010 : Int)) (by decide),
   (cleanup_runs_on_miss_store_only Cache.empty 2000 5 1 fetchOneItem fetchOneItem
      [⟨"t1", none⟩] (by decide) (by decide) (by decide) rfl
      (Or.inl (by decide))).2.2⟩

/-- C10: when the per-date fetch fails, the only summary fields modified
are the daily breakdown (which gains the zero-count entry) and the
tasks-by-date map (which gains an empty list); `total_completed`, the
`api_calls` counter, `by_project`, `tasks_by_project` and
`all_completed_tasks` are untouched — in particular a failed fetch does
not increment the API-call counter. -/
theorem failed_date_frame (d now : Int)
    (fetch : Int → Except String (List Item)) (cache : Cache)
    (rs : RangeSummary) (e : String)
    (herr : (cache.get now d fetch).1 = .error e) :
    (processDateData d now fetch cache rs).1.total_completed = rs.total_completed ∧
    (processDateData d now fetch cache rs).1.api_calls = rs.api_calls ∧
    (processDateData d now fetch cache rs).1.by_project = rs.by_project ∧
    (processDateData d now fetch cache rs).1.tasks_by_project = rs.tasks_by_project ∧
    (processDateData d now fetch cache rs).1.all_completed_tasks =
      rs.all_completed_tasks ∧
    (processDateData d now fetch cache rs).1.daily_breakdown =
      dictInsert rs.daily_breakdown d ⟨0, weekdayOf d, decide (d = todayOf now), []⟩ ∧
    (processDateData d now fetch cache rs).1.tasks_by_date =
      dictInsert rs.tasks_by_date d [] := by
  rcases hget : cache.get now d fetch with ⟨r, c', k⟩
  rw [hget] at herr
  simp only at herr
  subst herr
  simp [processDateData, hget]

theorem failed_date_frame_witness :
    (processDateData 1 2000 fetchFailOn1 Cache.empty rsExample).1.total_completed =
      rsExample.total_completed ∧
    (processDateData 1 2000 fetchFailOn1 Cache.empty rsExample).1.api_calls =
      rsExample.api_calls ∧
    (processDateData 1 2000 fetchFailOn1 Cache.empty rsExample).1.by_project =
      rsExample.by_project ∧
    (processDateData 1 2000 fetchFailOn1 Cache.empty rsExample).1.tasks_by_project =
      rsExample.tasks_by_project ∧
    (processDateData 1 2000 fetchFailOn1 Cache.empty rsExample).1.all_completed_tasks =
      rsExample.all_completed_tasks ∧
    (processDateData 1 2000 fetchFailOn1 Cache.empty rsExample).1.daily_breakdown =
      dictInsert rsExample.daily_breakdown 1 ⟨0, weekdayOf 1, decide ((1 : Int) = todayOf 2000), []⟩ ∧
    (processDateData 1 2000 fetchFailOn1 Cache.empty rsExample).1.tasks_by_date =
      dictInsert rsExample.tasks_by_date 1 [] :=
  failed_date_frame 1 2000 fetchFailOn1 Cache.empty rsExample "HTTP 500" rfl

/-- C3 counterexample: a date already live in the cache is processed with
zero fetch invocations (a cache hit — `fetchByDate` is not invoked), yet
the live API-call counter is still incremented from 0 to 1, so the
counter is not incremented "exactly on operations where the fetch
function is actually invoked". -/
theorem api_calls_counted_on_hit :
    (processDateData 0 2000 fetchOneItem cacheWithDate0
        (initialRangeSummary 0 1 [0])).2.2 = 0 ∧
    (processDateData 0 2000 fetchOneItem cacheWithDate0
        (initialRangeSummary 0 1 [0])).1.api_calls = 1 := by
  constructor <;> rfl

/-- C3 amended: the `api_calls` counter is incremented exactly on the
per-date operations in which `Cache.get` returns successfully — cache
hits included, even though no fetch happens there — and not incremented
when the per-date fetch fails. -/
theorem api_calls_increment_iff_success (d now : Int)
    (fetch : Int → Except String (List Item)) (cache : Cache)
    (rs : RangeSummary) :
    (processDateData d now fetch cache rs).1.api_calls =
      rs.api_calls +
        (match (cache.get now d fetch).1 with
         | .ok _ => 1
         | .error _ => 0) := by
  rcases hget : cache.get now d fetch with ⟨r, c', k⟩
  cases r with
  | ok items => simp [processDateData, hget]
  | error e => simp [processDateData, hget]

/-- C4 counterexample: a reachable cache state (one miss-and-store at
minute 2000, entry expiring at minute 2010) observed at minute 100000 has
zero live (non-expired) entries, yet `get_stats` still reports one cached
date and one cached item: `get_stats` counts every stored entry, not the
live ones. -/
theorem stats_counts_expired_entries :
    (cacheWithDate0.expiry.filter (fun p => (100000 : Int) < p.2)).length = 0 ∧
    cacheWithDate0.getStats = (1, 1) := by
  constructor <;> rfl

/-- C4 amended: `get_stats` takes no notion of the current time and sums
over every entry present in the cache map; an entry whose `expiresAt` is
already in the past (but which no cleanup pass has removed yet) still
contributes its date and its item count to the statistics. -/
theorem stats_count_ignores_expiry (c : Cache) (now d e : Int)
    (items : List Item) (hmem : (d, items) ∈ c.cache)
    (_hexp : dictGet? c.expiry d = some e) (_hlt : e < now) :
    1 ≤ c.getStats.1 ∧ items.length ≤ c.getStats.2 := by
  constructor
  · exact List.length_pos.mpr (List.ne_nil_of_mem hmem)
  · have hm : items.length ∈ c.cache.map (fun p => p.2.length) :=
      List.mem_map.mpr ⟨(d, items), hmem, rfl⟩
    exact List.single_le_sum (fun x _ => Nat.zero_le x) _ hm

theorem stats_count_ignores_expiry_witness :
    1 ≤ cacheWithDate0.getStats.1 ∧
    ([(⟨"t1", none⟩ : Item)]).length ≤ cacheWithDate0.getStats.2 :=
  stats_count_ignores_expiry cacheWithDate0 100000 0 2010 [⟨"t1", none⟩]
    (by decide) rfl (by decide)

theorem ascDateRange_eq (s e : Int) :
    ascDateRange s e = if s ≤ e then s :: ascDateRange (s + 1) e else [] := by
  rw [ascDateRange]

theorem mem_ascDateRange_aux (d : Int) :
    ∀ (n : Nat) (s e : Int), (e + 1 - s).toNat = n →
      (d ∈ ascDateRange s e ↔ s ≤ d ∧ d ≤ e) := by
  intro n
  induction n with
  | zero =>
      intro s e hn
      rw [ascDateRange_eq]
      have hse : ¬ s ≤ e := by omega
      simp only [hse, if_false, List.not_mem_nil, false_iff]
      omega
  | succ n ih =>
      intro s e hn
      have hse : s ≤ e := by omega
      rw [ascDateRange_eq, if_pos hse]
      simp only [List.mem_cons]
      rw [ih (s + 1) e (by omega)]
      omega

theorem mem_ascDateRange (s e d : Int) :
    d ∈ ascDateRange s e ↔ s ≤ d ∧ d ≤ e :=
  mem_ascDateRange_aux d _ s e rfl

theorem pairwise_ascDateRange_aux :
    ∀ (n : Nat) (s e : Int), (e + 1 - s).toNat = n →
      (ascDateRange s e).Pairwise (· < ·) := by
  intro n
  induction n with
  | zero =>
      intro s e hn
      rw [ascDateRange_eq]
      have hse : ¬ s ≤ e := by omega
      simp [hse]
  | succ n ih =>
      intro s e hn
      have hse : s ≤ e := by omega
      rw [ascDateRange_eq, if_pos hse]
      refine List.pairwise_cons.mpr ⟨?_, ih (s + 1) e (by omega)⟩
      intro b hb
      have := (mem_ascDateRange (s + 1) e b).mp hb
      omega

theorem pairwise_ascDateRange (s e : Int) :
    (ascDateRange s e).Pairwise (· < ·) :=
  pairwise_ascDateRange_aux _ s e rfl

/-- C7: the date-range expander.  (i) With an explicit `startDate` the
result is `Except.ok` carrying every calendar date from `start` to `end`
inclusive in strictly ascending order, where `end` defaults to today when
`endDate` is absent, and `start > end` yields the empty sequence (not an
error).  (ii) Without `startDate` it returns exactly `days` dates
(default 7), today first, walking backward — the i-th date is
`today - i` — with reported `start = today - (days - 1)` and
`end = today`. -/
theorem date_range_expander_spec (days : Option Nat) (sd ed now : Int)
    (edOpt : Option (Except String Int)) :
    generateDateRange days (some (.ok sd)) (some (.ok ed)) now =
      .ok (ascDateRange sd ed, sd, ed) ∧
    generateDateRange days (some (.ok sd)) none now =
      .ok (ascDateRange sd (todayOf now), sd, todayOf now) ∧
    (∀ d, d ∈ ascDateRange sd ed ↔ sd ≤ d ∧ d ≤ ed) ∧
    (ascDateRange sd ed).Pairwise (· < ·) ∧
    (ed < sd → ascDateRange sd ed = []) ∧
    generateDateRange days none edOpt now =
      .ok ((List.range (days.getD 7)).map (fun (i : Nat) => todayOf now - (i : Int)),
           todayOf now - ((days.getD 7 : Int) - 1), todayOf now) ∧
    ((List.range (days.getD 7)).map (fun (i : Nat) => todayOf now - (i : Int))).length =
      days.getD 7 ∧
    (∀ i : Nat, i < days.getD 7 →
      ((List.range (days.getD 7)).map (fun (i : Nat) => todayOf now - (i : Int))).getD i 0 =
        todayOf now - (i : Int)) ∧
    ((List.range (days.getD 7)).map (fun (i : Nat) => todayOf now - (i : Int))).Pairwise (· > ·) := by
  refine ⟨rfl, rfl, fun d => mem_ascDateRange sd ed d, pairwise_ascDateRange sd ed,
    ?_, rfl, by simp, ?_, ?_⟩
  · intro hlt
    rw [ascDateRange_eq]
    have : ¬ sd ≤ ed := by omega
    simp [this]
  · intro i hi
    rw [List.getD_eq_getElem?_getD]
    simp [List.getElem?_map, List.getElem?_range, hi]
  · refine List.Pairwise.map _ ?_ (List.pairwise_lt_range (days.getD 7))
    intro a b hab
    simp only [gt_iff_lt]
    omega

theorem date_range_expander_spec_witness :
    generateDateRange (some 3) (some (Except.ok 10)) (some (Except.ok 12)) 0 =
      .ok (ascDateRange 10 12, 10, 12) ∧
    ascDateRange 5 3 = [] ∧
    generateDateRange (some 3) none none 0 =
      .ok ((List.range 3).map (fun (i : Nat) => todayOf 0 - (i : Int)),
           todayOf 0 - ((3 : Int) - 1), todayOf 0) ∧
    ((List.range 3).map (fun (i : Nat) => todayOf 0 - (i : Int))).getD 1 0 =
      todayOf 0 - (1 : Int) :=
  ⟨(date_range_expander_spec (some 3) 10 12 0 none).1,
   (date_range_expander_spec (some 3) 5 3 0 none).2.2.2.2.1 (by decide),
   (date_range_expander_spec (some 3) 10 12 0 none).2.2.2.2.2.1,
   (date_range_expander_spec (some 3) 10 12 0 none).2.2.2.2.2.2.2.1 1 (by decide)⟩

theorem generate_error_of_core_error (days : Option Nat)
    (sd ed : Option (Except String Int)) (now : Int)
    (fetch : Int → Except String (List Item))
    (fp : Except String (List Project)) (cache : Cache) (e : String)
    (h : buildReportCore days sd ed now fetch fp cache = .error e) :
    generateDateRange days sd ed now = .error e := by
  unfold buildReportCore at h
  cases hg : generateDateRange days sd ed now with
  | error e' =>
      rw [hg] at h
      exact congrArg Except.error (Except.error.inj h)
  | ok v =>
      obtain ⟨dl, st, en⟩ := v
      rw [hg] at h
      exact absurd h (by simp)

/-- C2: the top-level report builder is total, and whenever the body of
its `try` block fails (the only fallible step being date-range
expansion), it returns the degraded report — error message in `error`,
`total_completed` 0, empty `daily_breakdown` and `by_project` — rather
than propagating the failure, leaving the cache untouched. -/
theorem report_builder_degrades_on_error (days : Option Nat)
    (sd ed : Option (Except String Int)) (now : Int)
    (fetch : Int → Except String (List Item))
    (fp : Except String (List Project)) (cache : Cache) (e : String)
    (herr : buildReportCore days sd ed now fetch fp cache = .error e) :
    buildReport days sd ed now fetch fp cache = (degradedReport e, cache, 0) ∧
    (buildReport days sd ed now fetch fp cache).1.error = some e ∧
    (buildReport days sd ed now fetch fp cache).1.total_completed = 0 ∧
    (buildReport days sd ed now fetch fp cache).1.daily_breakdown = [] ∧
    (buildReport days sd ed now fetch fp cache).1.by_project = [] ∧
    generateDateRange days sd ed now = .error e := by
  have hb : buildReport days sd ed now fetch fp cache = (degradedReport e, cache, 0) := by
    unfold buildReport
    rw [herr]
  refine ⟨hb, ?_, ?_, ?_, ?_,
    generate_error_of_core_error days sd ed now fetch fp cache e herr⟩ <;>
    rw [hb] <;> rfl

theorem report_builder_degrades_on_error_witness :
    buildReport none (some (.error "ValueError")) none 0 fetchOneItem (.ok [])
        Cache.empty =
      (degradedReport "ValueError", Cache.empty, 0) ∧
    (buildReport none (some (.error "ValueError")) none 0 fetchOneItem (.ok [])
        Cache.empty).1.error = some "ValueError" ∧
    (buildReport none (some (.error "ValueError")) none 0 fetchOneItem (.ok [])
        Cache.empty).1.total_completed = 0 ∧
    (buildReport none (some (.error "ValueError")) none 0 fetchOneItem (.ok [])
        Cache.empty).1.daily_breakdown = [] ∧
    (buildReport none (some (.error "ValueError")) none 0 fetchOneItem (.ok [])
        Cache.empty).1.by_project = [] ∧
    generateDateRange none (some (.error "ValueError")) none 0 =
      .error "ValueError" :=
  report_builder_degrades_on_error none (some (.error "ValueError")) none 0
    fetchOneItem (.ok []) Cache.empty "ValueError" rfl

/-! ### Aggregation-loop lemmas -/

theorem processDateData_cache_eq (d now : Int)
    (fetch : Int → Except String (List Item)) (cache : Cache) (rs : RangeSummary) :
    (processDateData d now fetch cache rs).2.1 = (cache.get now d fetch).2.1 := by
  rcases hget : cache.get now d fetch with ⟨r, c', k⟩
  cases r <;> simp [processDateData, hget]

theorem processDateData_fields (d now : Int)
    (fetch : Int → Except String (List Item)) (cache : Cache) (rs : RangeSummary) :
    (processDateData d now fetch cache rs).1.total_days = rs.total_days ∧
    (processDateData d now fetch cache rs).1.total_completed =
      rs.total_completed + successCount (cache.get now d fetch).1 ∧
    (processDateData d now fetch cache rs).1.daily_breakdown =
      dictInsert rs.daily_breakdown d (entryForOutcome d now (cache.get now d fetch).1) := by
  rcases hget : cache.get now d fetch with ⟨r, c', k⟩
  cases r <;> simp [processDateData, hget, successCount, entryForOutcome]

theorem processDates_invariants (now : Int)
    (fetch : Int → Except String (List Item)) :
    ∀ (dates : List Int) (cache : Cache) (rs : RangeSummary),
      (processDates dates now fetch cache rs).1.total_days = rs.total_days ∧
      (processDates dates now fetch cache rs).1.total_completed =
        rs.total_completed +
          ((runOutcomes dates now fetch cache).map successCount).sum ∧
      ∀ d, d ∉ dates →
        dictGet? (processDates dates now fetch cache rs).1.daily_breakdown d =
          dictGet? rs.daily_breakdown d := by
  intro dates
  induction dates with
  | nil =>
      intro cache rs
      refine ⟨rfl, by simp [processDates, runOutcomes], fun d _ => rfl⟩
  | cons d rest ih =>
      intro cache rs
      have hstep := processDateData_fields d now fetch cache rs
      have hcache := processDateData_cache_eq d now fetch cache rs
      have hunf : (processDates (d :: rest) now fetch cache rs).1 =
          (processDates rest now fetch (processDateData d now fetch cache rs).2.1
            (processDateData d now fetch cache rs).1).1 := by
        simp [processDates]
      obtain ⟨ihd, ihc, ihf⟩ :=
        ih (processDateData d now fetch cache rs).2.1
          (processDateData d now fetch cache rs).1
      have hout : runOutcomes (d :: rest) now fetch cache =
          (cache.get now d fetch).1 ::
            runOutcomes rest now fetch (cache.get now d fetch).2.1 := by
        simp [runOutcomes]
      refine ⟨?_, ?_, ?_⟩
      · rw [hunf]
        simpa [hstep.1] using ihd
      · rw [hunf, ihc, hstep.2.1, hcache, hout]
        simp only [List.map_cons, List.sum_cons]
        omega
      · intro d' hd'
        simp only [List.mem_cons, not_or] at hd'
        rw [hunf, ihf d' hd'.2, hstep.2.2,
          dictGet?_dictInsert_ne _ _ _ _ hd'.1]

theorem processDates_breakdown (now : Int)
    (fetch : Int → Except String (List Item)) :
    ∀ (dates : List Int) (cache : Cache) (rs : RangeSummary), dates.Nodup →
      ∀ p ∈ dates.zip (runOutcomes dates now fetch cache),
        dictGet? (processDates dates now fetch cache rs).1.daily_breakdown p.1 =
          some (entryForOutcome p.1 now p.2) := by
  intro dates
  induction dates with
  | nil =>
      intro cache rs _ p hp
      simp [runOutcomes] at hp
  | cons d rest ih =>
      intro cache rs hnd p hp
      have hout : runOutcomes (d :: rest) now fetch cache =
          (cache.get now d fetch).1 ::
            runOutcomes rest now fetch (cache.get now d fetch).2.1 := by
        simp [runOutcomes]
      rw [hout, List.zip_cons_cons] at hp
      have hstep := processDateData_fields d now fetch cache rs
      have hcache := processDateData_cache_eq d now fetch cache rs
      have hunf : (processDates (d :: rest) now fetch cache rs).1 =
          (processDates rest now fetch (processDateData d now fetch cache rs).2.1
            (processDateData d now fetch cache rs).1).1 := by
        simp [processDates]
      simp only [List.nodup_cons] at hnd
      rcases List.mem_cons.mp hp with rfl | hmem
      · rw [hunf]
        have hframe :=
          (processDates_invariants now fetch rest
            (processDateData d now fetch cache rs).2.1
            (processDateData d now fetch cache rs).1).2.2 d hnd.1
        rw [hframe, hstep.2.2]
        exact dictGet?_dictInsert_self _ _ _
      · rw [hunf]
        rw [← hcache] at hmem
        exact ih (processDateData d now fetch cache rs).2.1
          (processDateData d now fetch cache rs).1 hnd.2 p hmem

theorem calculateStatistics_frame (rs : RangeSummary) :
    (calculateStatistics rs).total_days = rs.total_days ∧
    (calculateStatistics rs).total_completed = rs.total_completed ∧
    (calculateStatistics rs).daily_breakdown = rs.daily_breakdown := by
  unfold calculateStatistics
  cases h : rs.daily_breakdown with
  | nil => exact ⟨rfl, rfl, h⟩
  | cons a l => exact ⟨rfl, rfl, rfl⟩

/-- C1: the aggregation loop processes every date of the (duplicate-free)
expanded sequence regardless of which per-date fetches fail: the final
report's `total_days` is the length of the full date sequence,
`total_completed` is the sum of the item counts of exactly the successful
per-date outcomes (failures contribute 0), and every date — failing ones
included — has a per-date breakdown entry, a failing date's entry being
count 0 with an empty item list and its weekday and `is_today` flag still
populated. -/
theorem aggregator_isolates_failures (dates : List Int) (s e now : Int)
    (fetch : Int → Except String (List Item)) (cache : Cache)
    (hnd : dates.Nodup) :
    (calculateStatistics
        (processDates dates now fetch cache (initialRangeSummary s e dates)).1).total_days =
      dates.length ∧
    (calculateStatistics
        (processDates dates now fetch cache (initialRangeSummary s e dates)).1).total_completed =
      ((runOutcomes dates now fetch cache).map successCount).sum ∧
    (∀ p ∈ dates.zip (runOutcomes dates now fetch cache),
      dictGet? (calculateStatistics
          (processDates dates now fetch cache
            (initialRangeSummary s e dates)).1).daily_breakdown p.1 =
        some (entryForOutcome p.1 now p.2)) := by
  obtain ⟨hframe1, hframe2, hframe3⟩ :=
    calculateStatistics_frame
      (processDates dates now fetch cache (initialRangeSummary s e dates)).1
  obtain ⟨hd, hc, _⟩ :=
    processDates_invariants now fetch dates cache (initialRangeSummary s e dates)
  refine ⟨?_, ?_, ?_⟩
  · rw [hframe1, hd]
    rfl
  · rw [hframe2, hc]
    simp [initialRangeSummary]
  · intro p hp
    rw [hframe3]
    exact processDates_breakdown now fetch dates cache _ hnd p hp

theorem aggregator_isolates_failures_witness :
    (calculateStatistics
        (processDates [0, 1, 2] 2000 fetchFailOn1 Cache.empty
          (initialRangeSummary 0 2 [0, 1, 2])).1).total_days =
      ([0, 1, 2] : List Int).length ∧
    (calculateStatistics
        (processDates [0, 1, 2] 2000 fetchFailOn1 Cache.empty
          (initialRangeSummary 0 2 [0, 1, 2])).1).total_completed =
      ((runOutcomes [0, 1, 2] 2000 fetchFailOn1 Cache.empty).map successCount).sum ∧
    dictGet? (calculateStatistics
        (processDates [0, 1, 2] 2000 fetchFailOn1 Cache.empty
          (initialRangeSummary 0 2 [0, 1, 2])).1).daily_breakdown 1 =
      some (entryForOutcome 1 2000 (.error "HTTP 500")) :=
  ⟨(aggregator_isolates_failures [0, 1, 2] 0 2 2000 fetchFailOn1 Cache.empty
      (by decide)).1,
   (aggregator_isolates_failures [0, 1, 2] 0 2 2000 fetchFailOn1 Cache.empty
      (by decide)).2.1,
   (aggregator_isolates_failures [0, 1, 2] 0 2 2000 fetchFailOn1 Cache.empty
      (by decide)).2.2 (1, .error "HTTP 500") (by decide)⟩

/-! ### Stable-sort lemmas for the statistics calculator -/

theorem insertByCount_ne_nil (x : Int × Nat) (s : List (Int × Nat)) :
    insertByCount x s ≠ [] := by
  cases s with
  | nil => simp [insertByCount]
  | cons y t =>
      unfold insertByCount
      split <;> simp

theorem mem_insertByCount (a x : Int × Nat) (s : List (Int × Nat)) :
    a ∈ insertByCount x s ↔ a = x ∨ a ∈ s := by
  induction s with
  | nil => simp [insertByCount]
  | cons y t ih =>
      unfold insertByCount
      split
      · simp [List.mem_cons]
      · simp only [List.mem_cons, ih]
        tauto

theorem pairwise_insertByCount (x : Int × Nat) (s : List (Int × Nat))
    (hs : s.Pairwise (fun a b => a.2 ≤ b.2)) :
    (insertByCount x s).Pairwise (fun a b => a.2 ≤ b.2) := by
  induction s with
  | nil => simp [insertByCount]
  | cons y t ih =>
      rw [List.pairwise_cons] at hs
      unfold insertByCount
      split
      · rename_i hxy
        refine List.pairwise_cons.mpr ⟨?_, List.pairwise_cons.mpr hs⟩
        intro b hb
        rcases List.mem_cons.mp hb with rfl | hbt
        · exact hxy
        · exact le_trans hxy (hs.1 b hbt)
      · rename_i hxy
        refine List.pairwise_cons.mpr ⟨?_, ih hs.2⟩
        intro b hb
        rcases (mem_insertByCount b x t).mp hb with rfl | hbt
        · omega
        · exact hs.1 b hbt

theorem pairwise_sortByCount (l : List (Int × Nat)) :
    (sortByCount l).Pairwise (fun a b => a.2 ≤ b.2) := by
  induction l with
  | nil => simp [sortByCount]
  | cons x t ih => exact pairwise_insertByCount x (sortByCount t) ih

theorem sortByCount_ne_nil (l : List (Int × Nat)) (h : l ≠ []) :
    sortByCount l ≠ [] := by
  cases l with
  | nil => exact absurd rfl h
  | cons x t => exact insertByCount_ne_nil x (sortByCount t)

theorem headD_insertByCount (x z : Int × Nat) (s : List (Int × Nat)) :
    (insertByCount x s).headD z =
      match s with
      | [] => x
      | y :: _ => if x.2 ≤ y.2 then x else y := by
  cases s with
  | nil => rfl
  | cons y t =>
      unfold insertByCount
      split <;> rename_i hc <;> simp [hc]

theorem getLastD_indep {α : Type} (l : List α) (z₁ z₂ : α) (h : l ≠ []) :
    l.getLastD z₁ = l.getLastD z₂ := by
  cases l with
  | nil => exact absurd rfl h
  | cons a t => rw [List.getLastD_cons, List.getLastD_cons]

theorem mem_getLastD {α : Type} (l : List α) (z : α) (h : l ≠ []) :
    l.getLastD z ∈ l := by
  induction l generalizing z with
  | nil => exact absurd rfl h
  | cons a t ih =>
      rw [List.getLastD_cons]
      cases ht : t with
      | nil => simp
      | cons b u =>
          have := ih a (by simp [ht])
          rw [ht] at this
          exact List.mem_cons_of_mem _ this

theorem headD_sortByCount (l : List (Int × Nat)) (z : Int × Nat) (h : l ≠ []) :
    some ((sortByCount l).headD z) = specLeastDay l := by
  induction l with
  | nil => exact absurd rfl h
  | cons x t ih =>
      by_cases ht : t = []
      · subst ht
        simp [sortByCount, insertByCount, specLeastDay]
      · have hst : sortByCount t ≠ [] := sortByCount_ne_nil t ht
        cases hs : sortByCount t with
        | nil => exact absurd hs hst
        | cons y u =>
            have ihy : some y = specLeastDay t := by
              have := ih ht
              rw [hs] at this
              simpa using this
            show some ((insertByCount x (sortByCount t)).headD z) = specLeastDay (x :: t)
            rw [hs, headD_insertByCount]
            simp only [specLeastDay, ← ihy]
            split <;> rename_i hc <;> simp [hc]

theorem getLastD_insertByCount (x : Int × Nat) :
    ∀ (s : List (Int × Nat)) (z : Int × Nat),
      s.Pairwise (fun a b => a.2 ≤ b.2) → s ≠ [] →
      (insertByCount x s).getLastD z =
        if (s.getLastD x).2 < x.2 then x else s.getLastD z := by
  intro s
  induction s with
  | nil => intro z _ h; exact absurd rfl h
  | cons y t ih =>
      intro z hp hne
      rw [List.pairwise_cons] at hp
      cases ht : t with
      | nil =>
          subst ht
          have h1 : ([y] : List (Int × Nat)).getLastD x = y := by
            simp [List.getLastD_cons]
          have h2 : ([y] : List (Int × Nat)).getLastD z = y := by
            simp [List.getLastD_cons]
          unfold insertByCount
          split <;> rename_i hc
          · rw [h1, h2, if_neg (by omega)]
            simp [insertByCount, List.getLastD_cons]
          · rw [h1, if_pos (by omega)]
            simp [insertByCount, List.getLastD_cons]
      | cons b u =>
          subst ht
          have htne : (b :: u) ≠ ([] : List (Int × Nat)) := by simp
          unfold insertByCount
          split <;> rename_i hc
          · -- x placed at the front: the last element is unchanged
            have hyl : y.2 ≤ ((b :: u).getLastD y).2 :=
              hp.1 _ (mem_getLastD (b :: u) y htne)
            have hcondf : ¬ ((y :: b :: u).getLastD x).2 < x.2 := by
              rw [List.getLastD_cons]
              omega
            have hL : (x :: y :: b :: u).getLastD z = (b :: u).getLastD y := by
              rw [List.getLastD_cons, List.getLastD_cons]
            have hR : (y :: b :: u).getLastD z = (b :: u).getLastD y :=
              List.getLastD_cons _ _ _
            rw [hL, if_neg hcondf, hR]
          · -- x inserted into the tail: recurse
            have hL : (y :: insertByCount x (b :: u)).getLastD z =
                (insertByCount x (b :: u)).getLastD y := List.getLastD_cons _ _ _
            have hrec := ih y hp.2 htne
            have hcond : ((y :: b :: u).getLastD x) = ((b :: u).getLastD x) := by
              rw [List.getLastD_cons]
              exact getLastD_indep _ _ _ htne
            have hR : (y :: b :: u).getLastD z = (b :: u).getLastD y :=
              List.getLastD_cons _ _ _
            rw [hL, hrec, hcond, hR]

theorem getLastD_sortByCount (l : List (Int × Nat)) (z : Int × Nat) (h : l ≠ []) :
    some ((sortByCount l).getLastD z) = specMostDay l := by
  induction l with
  | nil => exact absurd rfl h
  | cons x t ih =>
      by_cases ht : t = []
      · subst ht
        simp [sortByCount, insertByCount, specMostDay, List.getLastD_cons]
      · have hst : sortByCount t ≠ [] := sortByCount_ne_nil t ht
        have hpw := pairwise_sortByCount t
        have ihz := ih ht
        have hxz : (sortByCount t).getLastD x = (sortByCount t).getLastD z :=
          getLastD_indep _ _ _ hst
        show some ((insertByCount x (sortByCount t)).getLastD z) = specMostDay (x :: t)
        rw [getLastD_insertByCount x (sortByCount t) z hpw hst, hxz]
        simp only [specMostDay, ← ihz]
        split <;> rename_i hc <;> simp [hc]

theorem calcStats_least (rs : RangeSummary) (h : rs.daily_breakdown ≠ []) :
    Option.map (fun q => (q.date, q.count)) (calculateStatistics rs).least_productive_day =
      some ((sortByCount (rs.daily_breakdown.map (fun p => (p.1, p.2.count)))).headD (0, 0)) := by
  unfold calculateStatistics
  cases hb : rs.daily_breakdown with
  | nil => exact absurd hb h
  | cons a tl => simp

theorem calcStats_most (rs : RangeSummary) (h : rs.daily_breakdown ≠ []) :
    Option.map (fun q => (q.date, q.count)) (calculateStatistics rs).most_productive_day =
      some ((sortByCount (rs.daily_breakdown.map (fun p => (p.1, p.2.count)))).getLastD (0, 0)) := by
  unfold calculateStatistics
  cases hb : rs.daily_breakdown with
  | nil => exact absurd hb h
  | cons a tl => simp

theorem calcStats_average (rs : RangeSummary) (h : rs.daily_breakdown ≠ []) :
    (calculateStatistics rs).average_per_day =
      (rs.total_completed : Rat) / (rs.daily_breakdown.length : Rat) := by
  unfold calculateStatistics
  cases hb : rs.daily_breakdown with
  | nil => exact absurd hb h
  | cons a tl => simp

/-- C8: with a non-empty per-date breakdown, the least-productive day is
the first pair attaining the minimum count and the most-productive day is
the last pair attaining the maximum count, in the order the breakdown was
accumulated (the expander's date order) — exactly the ends of a stable
ascending sort by count — and `average_per_day` is `total_completed`
divided by the number of breakdown entries; with an empty breakdown the
summary is returned unchanged (most/least stay null, the average stays
0). -/
theorem statistics_calculator_spec (rs : RangeSummary) :
    (rs.daily_breakdown = [] → calculateStatistics rs = rs) ∧
    (rs.daily_breakdown ≠ [] →
      Option.map (fun q => (q.date, q.count))
          (calculateStatistics rs).least_productive_day =
        specLeastDay (rs.daily_breakdown.map (fun p => (p.1, p.2.count))) ∧
      Option.map (fun q => (q.date, q.count))
          (calculateStatistics rs).most_productive_day =
        specMostDay (rs.daily_breakdown.map (fun p => (p.1, p.2.count))) ∧
      (calculateStatistics rs).average_per_day =
        (rs.total_completed : Rat) / (rs.daily_breakdown.length : Rat)) := by
  constructor
  · intro h
    simp [calculateStatistics, h]
  · intro h
    have hL : rs.daily_breakdown.map (fun p => (p.1, p.2.count)) ≠ [] := by
      simpa using h
    refine ⟨?_, ?_, calcStats_average rs h⟩
    · rw [calcStats_least rs h]
      exact headD_sortByCount _ _ hL
    · rw [calcStats_most rs h]
      exact getLastD_sortByCount _ _ hL

theorem statistics_calculator_spec_witness :
    calculateStatistics (initialRangeSummary 0 0 []) = initialRangeSummary 0 0 [] ∧
    (Option.map (fun q => (q.date, q.count))
        (calculateStatistics rsExample).least_productive_day =
      specLeastDay (rsExample.daily_breakdown.map (fun p => (p.1, p.2.count))) ∧
     Option.map (fun q => (q.date, q.count))
        (calculateStatistics rsExample).most_productive_day =
      specMostDay (rsExample.daily_breakdown.map (fun p => (p.1, p.2.count))) ∧
     (calculateStatistics rsExample).average_per_day =
       (rsExample.total_completed : Rat) / (rsExample.daily_breakdown.length : Rat)) :=
  ⟨(statistics_calculator_spec (initialRangeSummary 0 0 [])).1 rfl,
   (statistics_calculator_spec rsExample).2 (by decide)⟩
